import Mathlib

/-!
Verification of the `ilium` in-memory byte store (src/ilium.c).

The device state is embedded shallowly: the raw byte region becomes a total
function `Int → Nat` (only addresses in `[0, capacity)` are meaningful),
`size` and `capacity` are the C `long` fields modelled as unbounded `Int`
(the claims under study never approach 2^63, so machine overflow is not
modelled), and a file handle is its `f_pos` cursor, an `Int` (C `loff_t`).

The kernel page allocator is nondeterministic; it is embedded as an oracle
`List Bool`: each allocation attempt inside the growth loop of `ilium_write`
consumes one list entry (`true` = allocation succeeded, `false` = NULL), and
an exhausted oracle also means NULL.  Semaphore interruption
(`down_interruptible` returning nonzero) is a Boolean parameter `intr` of
each operation.
-/

set_option autoImplicit false

namespace Ilium

/-- PAGE_SIZE on the target architecture (x86-64). -/
def PAGE_SIZE : Int := 4096

/-- Error number `EFAULT`; the driver returns `-EFAULT` on bounds violations. -/
def EFAULT : Int := 14

/-- Error number `ERESTARTSYS`; returned when a semaphore wait is interrupted. -/
def ERESTARTSYS : Int := 512

/-- `SEEK_SET` whence value. -/
def SEEK_SET : Int := 0

/-- `SEEK_CUR` whence value. -/
def SEEK_CUR : Int := 1

/-- `SEEK_END` whence value. -/
def SEEK_END : Int := 2

/-- `struct ilium_dev`: the byte region, the logical size and the allocated
capacity, and `pages_pow` (log2 of the initially allocated page count).
The `cdev`/semaphore fields are operating-system bookkeeping and carry no
store state. -/
structure IliumDev where
  data : Int → Nat
  size : Int
  capacity : Int
  pages_pow : Nat

/-- Device state set up by `ilium_init`: 2^5 pages, zero-filled
(`memset(ilium_dev.data, 0, ilium_dev.capacity)`), size 0,
`capacity = PAGE_SIZE << 5`. -/
def iliumInit : IliumDev :=
  { data := fun _ => 0
    size := 0
    capacity := PAGE_SIZE * 2 ^ 5
    pages_pow := 5 }

/-- One successful doubling step inside the growth loop of `ilium_write`:
`memcpy(ptr, dev->data, dev->size)` copies the first `size` bytes,
`memset(ptr + dev->size, 0, (dev->capacity << 1) - dev->size)` zero-fills the
rest of the new region, and `dev->capacity <<= 1`. -/
def grow (dev : IliumDev) : IliumDev :=
  { dev with
    data := fun i => if i < dev.size then dev.data i else 0
    capacity := dev.capacity * 2 }

/-- Result of the growth loop: the updated device, the (possibly reduced)
byte count, and whether an allocation failure ended the loop. The `failed`
flag is ghost instrumentation recording which `break` left the loop; the
other two components are exactly the C state. -/
structure GrowResult where
  dev : IliumDev
  count : Int
  failed : Bool

/-- The `while (*offp + count > dev->capacity)` loop of `ilium_write`,
parametrised by the allocation oracle.  On an allocation failure (`false`
entry, or exhausted oracle) the loop sets `count = dev->capacity - *offp`
and breaks; on success it doubles the capacity via `grow` and retries. -/
def growLoop (offp count : Int) : List Bool → IliumDev → GrowResult
  | [], dev =>
    if offp + count > dev.capacity then
      ⟨dev, dev.capacity - offp, true⟩
    else
      ⟨dev, count, false⟩
  | ok :: rest, dev =>
    if offp + count > dev.capacity then
      if ok then
        growLoop offp count rest (grow dev)
      else
        ⟨dev, dev.capacity - offp, true⟩
    else
      ⟨dev, count, false⟩

/-- Result of `ilium_write`: the updated device, the updated `*offp`, and the
returned value (`count` on success, negative errno on failure). -/
structure WriteResult where
  dev : IliumDev
  offp : Int
  retval : Int

/-- `ilium_write`.  After an interruptible lock acquisition it rejects
`*offp > dev->size` with `-EFAULT`, runs the growth loop, copies the final
`count` user bytes to `dev->data + *offp`, adds `count` to `dev->size` and to
`*offp`, and returns `count`.  The user buffer is `buf : Nat → Nat` (byte at
each index). -/
def ilium_write (alloc : List Bool) (dev : IliumDev) (offp : Int)
    (buf : Nat → Nat) (count : Int) (intr : Bool) : WriteResult :=
  if intr then
    ⟨dev, offp, -ERESTARTSYS⟩
  else if offp > dev.size then
    ⟨dev, offp, -EFAULT⟩
  else
    let g := growLoop offp count alloc dev
    ⟨{ g.dev with
        data := fun i =>
          if offp ≤ i ∧ i < offp + g.count then buf (i - offp).toNat
          else g.dev.data i
        size := g.dev.size + g.count }
     , offp + g.count, g.count⟩

/-- Result of `ilium_read`: the bytes copied to the user buffer, the updated
`*offp`, and the returned value. -/
structure ReadResult where
  bytes : List Nat
  offp : Int
  retval : Int
  deriving DecidableEq

/-- `ilium_read`.  Rejects `*offp >= dev->size` with `-EFAULT`, clamps
`count` to `dev->size - *offp` when the read would pass the logical end,
copies `count` bytes from `dev->data + *offp` out, advances `*offp`, and
returns `count`. -/
def ilium_read (dev : IliumDev) (offp count : Int) (intr : Bool) : ReadResult :=
  if intr then
    ⟨[], offp, -ERESTARTSYS⟩
  else if offp ≥ dev.size then
    ⟨[], offp, -EFAULT⟩
  else
    let c := if offp + count > dev.size then dev.size - offp else count
    ⟨(List.range c.toNat).map (fun i : Nat => dev.data (offp + (i : Int))),
     offp + c, c⟩

/-- Result of `ilium_llseek`: the updated `filp->f_pos` and the returned
value. The device itself is never mutated by `ilium_llseek`. -/
structure SeekResult where
  f_pos : Int
  retval : Int
  deriving DecidableEq

/-- `ilium_llseek`.  `retval` starts as `-EFAULT` (so an interrupted wait
returns `-EFAULT`, not `-ERESTARTSYS`); each `whence` case rejects a target
position `≥ dev->size` leaving `f_pos` untouched; a `whence` outside the
three cases falls through the `switch` and returns the current `f_pos`. -/
def ilium_llseek (dev : IliumDev) (f_pos off whence : Int) (intr : Bool) :
    SeekResult :=
  if intr then
    ⟨f_pos, -EFAULT⟩
  else if whence = SEEK_SET then
    if off ≥ dev.size then ⟨f_pos, -EFAULT⟩
    else ⟨off, off⟩
  else if whence = SEEK_CUR then
    if f_pos + off ≥ dev.size then ⟨f_pos, -EFAULT⟩
    else ⟨f_pos + off, f_pos + off⟩
  else if whence = SEEK_END then
    if dev.size - 1 + off ≥ dev.size then ⟨f_pos, -EFAULT⟩
    else ⟨dev.size - 1 + off, dev.size - 1 + off⟩
  else
    ⟨f_pos, f_pos⟩

/-- The target position each `whence` case of `ilium_llseek` checks against
`dev->size`: `off` for `SEEK_SET`, `f_pos + off` for `SEEK_CUR`,
`dev->size - 1 + off` for `SEEK_END`. -/
def seekTarget (dev : IliumDev) (f_pos off whence : Int) : Int :=
  if whence = SEEK_SET then off
  else if whence = SEEK_CUR then f_pos + off
  else dev.size - 1 + off

/-- Whole-system state: the single shared device plus the cursors of the
open handles (`ilium_open` stores the device pointer; the VFS initialises
`f_pos` to 0 on open and drops the handle on release). -/
structure SysState where
  dev : IliumDev
  handles : List Int

/-- An operation issued against the device through handle index `h`. -/
inductive Op where
  | opn : Op
  | cls (h : Nat) : Op
  | wr (h : Nat) (alloc : List Bool) (buf : Nat → Nat) (count : Int)
      (intr : Bool) : Op
  | rd (h : Nat) (count : Int) (intr : Bool) : Op
  | sk (h : Nat) (off whence : Int) (intr : Bool) : Op

/-- Execute one operation.  Operations on a handle index that is not open
are impossible through the VFS and leave the state unchanged. -/
def runOp (s : SysState) : Op → SysState
  | .opn => ⟨s.dev, s.handles ++ [0]⟩
  | .cls h => ⟨s.dev, s.handles.eraseIdx h⟩
  | .wr h alloc buf count intr =>
    match s.handles[h]? with
    | none => s
    | some p =>
      let r := ilium_write alloc s.dev p buf count intr
      ⟨r.dev, s.handles.set h r.offp⟩
  | .rd h count intr =>
    match s.handles[h]? with
    | none => s
    | some p =>
      let r := ilium_read s.dev p count intr
      ⟨s.dev, s.handles.set h r.offp⟩
  | .sk h off whence intr =>
    match s.handles[h]? with
    | none => s
    | some p =>
      let r := ilium_llseek s.dev p off whence intr
      ⟨s.dev, s.handles.set h r.f_pos⟩

/-- System state right after module load: the freshly initialised device and
no open handles. -/
def initState : SysState := ⟨iliumInit, []⟩

/-- Execute a sequence of operations from a given state. -/
def runOps (s : SysState) : List Op → SysState
  | [] => s
  | op :: rest => runOps (runOp s op) rest

/-- An all-zero user buffer. -/
def buf0 : Nat → Nat := fun _ => 0

/-- A recognisable user buffer: byte `i` holds `i + 1`. -/
def buf1 : Nat → Nat := fun i => i + 1

/-- The growth unit named by the specification: the initial capacity,
`PAGE_SIZE * 2^5 = 131072` bytes. -/
def growthUnit : Int := PAGE_SIZE * 2 ^ 5

/-- States reachable from `initState` when every write is issued through a
handle whose cursor sits exactly at the current logical end (append-only
writes); reads, seeks, opens and closes are unrestricted, and the
allocation oracle and interruption of each operation are arbitrary. -/
inductive ReachableApp : SysState → Prop where
  | init : ReachableApp initState
  | opn {s : SysState} : ReachableApp s → ReachableApp (runOp s .opn)
  | cls {s : SysState} (h : Nat) :
      ReachableApp s → ReachableApp (runOp s (.cls h))
  | rd {s : SysState} (h : Nat) (count : Int) (intr : Bool) :
      ReachableApp s → ReachableApp (runOp s (.rd h count intr))
  | sk {s : SysState} (h : Nat) (off whence : Int) (intr : Bool) :
      ReachableApp s → ReachableApp (runOp s (.sk h off whence intr))
  | wr {s : SysState} (h : Nat) (alloc : List Bool) (buf : Nat → Nat)
      (count : Int) (intr : Bool) :
      ReachableApp s → s.handles[h]? = some s.dev.size →
      ReachableApp (runOp s (.wr h alloc buf count intr))

/-- A reachable state with `size > capacity`: fill the initial capacity
exactly, seek back to the start, and overwrite one byte. -/
def c1state : SysState :=
  runOps initState
    [.opn, .wr 0 [] buf0 131072 false, .sk 0 0 SEEK_SET false,
     .wr 0 [] buf0 1 false]

/-- A reachable state whose handle 0 sits exactly at `size` while
`size > capacity`: fill the capacity through handle 0, push `size` past the
capacity with an overlapping write through handle 1, then read to the
logical end through handle 0. -/
def c3state : SysState :=
  runOps initState
    [.opn, .wr 0 [] buf0 131072 false, .opn, .wr 1 [] buf0 2 false,
     .rd 0 10 false]

/-- A reachable state whose capacity has already grown to 262144 bytes and
which has a second handle with its cursor at offset 0. -/
def c5pre : SysState :=
  runOps initState [.opn, .wr 0 [true] buf0 200000 false, .opn]

/-- The device after writing ten bytes at offset 0 into the fresh device. -/
def d10 : IliumDev := (ilium_write [] iliumInit 0 buf1 10 false).dev

/-- The device after writing five bytes at offset 0 into the fresh device. -/
def dev5 : IliumDev := (ilium_write [] iliumInit 0 buf1 5 false).dev

/-!
Helper lemmas about the growth loop.
-/

/-- The doubling step doubles the capacity. -/
@[simp] theorem grow_capacity (dev : IliumDev) :
    (grow dev).capacity = dev.capacity * 2 := rfl

/-- The doubling step keeps the logical size. -/
@[simp] theorem grow_size (dev : IliumDev) : (grow dev).size = dev.size := rfl

/-- Whatever the oracle does, the loop leaves `offp + count ≤ capacity`: the
normal exit has the loop condition false, and the failure exit sets `count`
to exactly `capacity - offp`. -/
theorem growLoop_add_count_le (offp count : Int) (alloc : List Bool) :
    ∀ dev : IliumDev,
      offp + (growLoop offp count alloc dev).count ≤
        (growLoop offp count alloc dev).dev.capacity := by
  induction alloc with
  | nil =>
    intro dev
    by_cases hcond : offp + count > dev.capacity
    · simp [growLoop, hcond]
    · simp [growLoop, hcond]
      omega
  | cons ok rest ih =>
    intro dev
    by_cases hcond : offp + count > dev.capacity
    · by_cases hok : ok = true
      · simpa [growLoop, hcond, hok] using ih (grow dev)
      · simp [growLoop, hcond, hok]
    · simp [growLoop, hcond]
      omega

/-- The growth loop never shrinks a nonnegative capacity. -/
theorem growLoop_capacity_mono (offp count : Int) (alloc : List Bool) :
    ∀ dev : IliumDev, 0 ≤ dev.capacity →
      dev.capacity ≤ (growLoop offp count alloc dev).dev.capacity := by
  induction alloc with
  | nil =>
    intro dev hc
    by_cases hcond : offp + count > dev.capacity <;> simp [growLoop, hcond]
  | cons ok rest ih =>
    intro dev hc
    by_cases hcond : offp + count > dev.capacity
    · by_cases hok : ok = true
      · have h := ih (grow dev) (by rw [grow_capacity]; omega)
        rw [grow_capacity] at h
        simp only [growLoop, if_pos hcond, hok, if_true]
        omega
      · simp [growLoop, hcond, hok]
    · simp [growLoop, hcond]

/-- The count coming out of the loop is either the requested count or
`capacity - offp` for the final capacity. -/
theorem growLoop_count_cases (offp count : Int) (alloc : List Bool) :
    ∀ dev : IliumDev,
      (growLoop offp count alloc dev).count = count ∨
        (growLoop offp count alloc dev).count =
          (growLoop offp count alloc dev).dev.capacity - offp := by
  induction alloc with
  | nil =>
    intro dev
    by_cases hcond : offp + count > dev.capacity <;> simp [growLoop, hcond]
  | cons ok rest ih =>
    intro dev
    by_cases hcond : offp + count > dev.capacity
    · by_cases hok : ok = true
      · simpa [growLoop, hcond, hok] using ih (grow dev)
      · simp [growLoop, hcond, hok]
    · simp [growLoop, hcond]

/-- If the loop reports a failure, the count it hands back is
`capacity - offp` for the final capacity. -/
theorem growLoop_count_of_failed (offp count : Int) (alloc : List Bool) :
    ∀ dev : IliumDev, (growLoop offp count alloc dev).failed = true →
      (growLoop offp count alloc dev).count =
        (growLoop offp count alloc dev).dev.capacity - offp := by
  induction alloc with
  | nil =>
    intro dev hf
    by_cases hcond : offp + count > dev.capacity <;>
      simp [growLoop, hcond] at hf ⊢
  | cons ok rest ih =>
    intro dev hf
    by_cases hcond : offp + count > dev.capacity
    · by_cases hok : ok = true
      · simp only [growLoop, if_pos hcond, hok, if_true] at hf ⊢
        exact ih (grow dev) hf
      · simp [growLoop, hcond, hok]
    · simp [growLoop, hcond] at hf

/-- The growth loop never touches `size`. -/
theorem growLoop_size_eq (offp count : Int) (alloc : List Bool) :
    ∀ dev : IliumDev, (growLoop offp count alloc dev).dev.size = dev.size := by
  induction alloc with
  | nil =>
    intro dev
    by_cases hcond : offp + count > dev.capacity <;> simp [growLoop, hcond]
  | cons ok rest ih =>
    intro dev
    by_cases hcond : offp + count > dev.capacity
    · by_cases hok : ok = true
      · simp only [growLoop, if_pos hcond, hok, if_true]
        rw [ih (grow dev), grow_size]
      · simp [growLoop, hcond, hok]
    · simp [growLoop, hcond]

/-- The final capacity is the starting capacity times a power of two (one
factor of two per successful allocation). -/
theorem growLoop_capacity_pow (offp count : Int) (alloc : List Bool) :
    ∀ dev : IliumDev, ∃ t : Nat,
      (growLoop offp count alloc dev).dev.capacity = dev.capacity * 2 ^ t := by
  induction alloc with
  | nil =>
    intro dev
    refine ⟨0, ?_⟩
    by_cases hcond : offp + count > dev.capacity <;> simp [growLoop, hcond]
  | cons ok rest ih =>
    intro dev
    by_cases hcond : offp + count > dev.capacity
    · by_cases hok : ok = true
      · obtain ⟨t, ht⟩ := ih (grow dev)
        refine ⟨t + 1, ?_⟩
        simp only [growLoop, if_pos hcond, hok, if_true]
        rw [ht, grow_capacity]
        ring
      · exact ⟨0, by simp [growLoop, hcond, hok]⟩
    · exact ⟨0, by simp [growLoop, hcond]⟩

/-- A successful exit of the growth loop: the requested end fits, and either
no doubling happened at all, or the final capacity is twice some intermediate
capacity (itself the starting capacity times a power of two) that was still
too small.  This is the minimality certificate for the doubling policy. -/
theorem growLoop_success (offp count : Int) (alloc : List Bool) :
    ∀ dev : IliumDev, (growLoop offp count alloc dev).failed = false →
      offp + count ≤ (growLoop offp count alloc dev).dev.capacity ∧
        ((growLoop offp count alloc dev).dev.capacity = dev.capacity ∨
          ∃ c : Int, (growLoop offp count alloc dev).dev.capacity = 2 * c ∧
            offp + count > c ∧ ∃ s : Nat, c = dev.capacity * 2 ^ s) := by
  induction alloc with
  | nil =>
    intro dev hf
    by_cases hcond : offp + count > dev.capacity
    · simp [growLoop, hcond] at hf
    · simp [growLoop, hcond]
      omega
  | cons ok rest ih =>
    intro dev hf
    by_cases hcond : offp + count > dev.capacity
    · by_cases hok : ok = true
      · simp only [growLoop, if_pos hcond, hok, if_true] at hf ⊢
        obtain ⟨h1, h2⟩ := ih (grow dev) hf
        refine ⟨h1, Or.inr ?_⟩
        rcases h2 with h2 | ⟨c, hc1, hc2, s, hc3⟩
        · exact ⟨dev.capacity, by rw [h2, grow_capacity]; ring, hcond, 0,
            by ring⟩
        · exact ⟨c, hc1, hc2, s + 1, by rw [hc3, grow_capacity]; ring⟩
      · simp [growLoop, hcond, hok] at hf
    · simp [growLoop, hcond]
      omega

/-!
Component equations for the success path of `ilium_write`
(not interrupted, `*offp ≤ dev->size`).
-/

/-- On the success path the returned value is the count produced by the
growth loop. -/
theorem ilium_write_retval_of_le (alloc : List Bool) (dev : IliumDev)
    (offp : Int) (buf : Nat → Nat) (count : Int) (h : offp ≤ dev.size) :
    (ilium_write alloc dev offp buf count false).retval =
      (growLoop offp count alloc dev).count := by
  have ho : ¬offp > dev.size := by omega
  simp [ilium_write, ho]

/-- On the success path `size` grows by the count produced by the growth
loop. -/
theorem ilium_write_size_of_le (alloc : List Bool) (dev : IliumDev)
    (offp : Int) (buf : Nat → Nat) (count : Int) (h : offp ≤ dev.size) :
    (ilium_write alloc dev offp buf count false).dev.size =
      dev.size + (growLoop offp count alloc dev).count := by
  have ho : ¬offp > dev.size := by omega
  simp [ilium_write, ho, growLoop_size_eq]

/-- On the success path the final capacity is the growth loop's capacity. -/
theorem ilium_write_capacity_of_le (alloc : List Bool) (dev : IliumDev)
    (offp : Int) (buf : Nat → Nat) (count : Int) (h : offp ≤ dev.size) :
    (ilium_write alloc dev offp buf count false).dev.capacity =
      (growLoop offp count alloc dev).dev.capacity := by
  have ho : ¬offp > dev.size := by omega
  simp [ilium_write, ho]

/-- On the success path `*offp` advances by the count produced by the growth
loop. -/
theorem ilium_write_offp_of_le (alloc : List Bool) (dev : IliumDev)
    (offp : Int) (buf : Nat → Nat) (count : Int) (h : offp ≤ dev.size) :
    (ilium_write alloc dev offp buf count false).offp =
      offp + (growLoop offp count alloc dev).count := by
  have ho : ¬offp > dev.size := by omega
  simp [ilium_write, ho]

/-- On the success path the byte region holds the user bytes on the written
window and the growth loop's bytes elsewhere. -/
theorem ilium_write_data_of_le (alloc : List Bool) (dev : IliumDev)
    (offp : Int) (buf : Nat → Nat) (count : Int) (h : offp ≤ dev.size) :
    (ilium_write alloc dev offp buf count false).dev.data = fun i =>
      if offp ≤ i ∧ i < offp + (growLoop offp count alloc dev).count then
        buf (i - offp).toNat
      else (growLoop offp count alloc dev).dev.data i := by
  have ho : ¬offp > dev.size := by omega
  simp [ilium_write, ho]

/-- An in-bounds read that needs no clamping copies out exactly the
requested window. -/
theorem ilium_read_bytes_of_lt (dev : IliumDev) (offp count : Int)
    (h1 : offp < dev.size) (h2 : offp + count ≤ dev.size) :
    (ilium_read dev offp count false).bytes =
      (List.range count.toNat).map
        (fun i : Nat => dev.data (offp + (i : Int))) := by
  have hge : ¬offp ≥ dev.size := by omega
  have hcl : ¬offp + count > dev.size := by omega
  simp [ilium_read, hge, hcl]

/-!
Claim C1.
-/

/-- Claim C1 (counterexample): the invariant `size ≤ capacity` does not hold
for every reachable state.  Filling the initial 131072-byte capacity through
one handle, seeking back to offset 0 and overwriting one byte — an
overlapping write at an offset strictly below the current size — leaves the
store with `size = 131073 > capacity = 131072`, because `ilium_write` adds
the written count to `size` even when the bytes overlap existing data. -/
theorem size_exceeds_capacity_after_overlapping_write :
    c1state.dev.capacity < c1state.dev.size := by decide

/-- Claim C1 (amended): `size ≤ capacity` holds in every state reachable
from the initial state by Open, Close, Read, Seek and append-only Writes
(writes issued at offset exactly equal to the current size); overlapping
writes at an offset strictly below the current size are excluded, since
they can push `size` past `capacity`. -/
theorem size_le_capacity_of_append_only {s : SysState}
    (hs : ReachableApp s) : s.dev.size ≤ s.dev.capacity := by
  induction hs with
  | init => decide
  | opn _ ih => simpa [runOp] using ih
  | @cls s h _ ih => simpa [runOp] using ih
  | @rd s h count intr _ ih =>
    rcases hh : s.handles[h]? with _ | p <;> simpa [runOp, hh] using ih
  | @sk s h off whence intr _ ih =>
    rcases hh : s.handles[h]? with _ | p <;> simpa [runOp, hh] using ih
  | @wr s h alloc buf count intr _ hpos ih =>
    simp only [runOp, hpos]
    by_cases hi : intr = true
    · simpa [ilium_write, hi] using ih
    · have hb : intr = false := by
        cases intr
        · rfl
        · simp at hi
      subst hb
      rw [ilium_write_size_of_le alloc s.dev s.dev.size buf count le_rfl,
        ilium_write_capacity_of_le alloc s.dev s.dev.size buf count le_rfl]
      exact growLoop_add_count_le s.dev.size count alloc s.dev

/-- Witness for the amended claim C1 at a concrete reachable state: open a
handle and append ten bytes at offset 0 (the current size). -/
theorem size_le_capacity_of_append_only_witness :
    (runOp (runOp initState Op.opn)
        (Op.wr 0 [] buf1 10 false)).dev.size ≤
      (runOp (runOp initState Op.opn)
        (Op.wr 0 [] buf1 10 false)).dev.capacity :=
  size_le_capacity_of_append_only
    (ReachableApp.wr 0 [] buf1 10 false (ReachableApp.opn ReachableApp.init)
      (by decide))

/-!
Claim C2.
-/

/-- Claim C2: `size` is an accumulating counter of bytes written, not a
high-water mark.  Every write that returns a nonnegative count leaves
`size` increased by exactly that count, regardless of offset. -/
theorem write_size_accumulates (alloc : List Bool) (dev : IliumDev)
    (offp : Int) (buf : Nat → Nat) (count : Int) (intr : Bool)
    (h : 0 ≤ (ilium_write alloc dev offp buf count intr).retval) :
    (ilium_write alloc dev offp buf count intr).dev.size =
      dev.size + (ilium_write alloc dev offp buf count intr).retval := by
  by_cases hi : intr = true
  · simp [ilium_write, hi, ERESTARTSYS] at h
  · have hb : intr = false := by
      cases intr
      · rfl
      · simp at hi
    subst hb
    by_cases ho : offp > dev.size
    · simp [ilium_write, ho, EFAULT] at h
    · rw [ilium_write_size_of_le alloc dev offp buf count (by omega),
        ilium_write_retval_of_le alloc dev offp buf count (by omega)]

/-- Witness for claim C2, reproducing the specification's example: after
writing ten bytes at offset 0, a second write of ten bytes at offset 0
again is accounted in full, yielding `size = 20` even though only ten
distinct storage bytes were touched. -/
theorem write_size_accumulates_witness :
    d10.size = 10 ∧
      0 ≤ (ilium_write [] d10 0 buf1 10 false).retval ∧
      (ilium_write [] d10 0 buf1 10 false).dev.size =
        d10.size + (ilium_write [] d10 0 buf1 10 false).retval ∧
      (ilium_write [] d10 0 buf1 10 false).dev.size = 20 :=
  ⟨by decide, by decide,
   write_size_accumulates [] d10 0 buf1 10 false (by decide), by decide⟩

/-!
Claim C3.
-/

/-- Claim C3 (counterexample): a Write at `offset == size` does not always
return a non-error byte count.  In the reachable state `c3state` handle 0
sits exactly at `size = 131074` while `capacity = 131072`; a one-byte write
there passes the bounds check, hits an allocation failure in the growth
loop, truncates the count to `capacity - offset = -2`, and returns `-2` —
an error value, not a byte count. -/
theorem write_at_size_can_return_error :
    c3state.handles[0]? = some c3state.dev.size ∧
      (ilium_write [] c3state.dev c3state.dev.size buf0 1 false).retval <
        0 := by decide

/-- Claim C3 (amended): Read with `offset ≥ size` fails with `-EFAULT`;
Write with `offset > size` fails with `-EFAULT` and changes nothing; and
Write at `offset == size` returns a nonnegative byte count provided the
store satisfies `0 ≤ size ≤ capacity` (in reachable states where `size`
has already outgrown `capacity`, an allocation failure can make it return
a negative value). -/
theorem bounds_checks :
    (∀ (dev : IliumDev) (offp count : Int), dev.size ≤ offp →
        (ilium_read dev offp count false).retval = -EFAULT) ∧
      (∀ (alloc : List Bool) (dev : IliumDev) (offp : Int) (buf : Nat → Nat)
          (count : Int), dev.size < offp →
          ilium_write alloc dev offp buf count false = ⟨dev, offp, -EFAULT⟩) ∧
      (∀ (alloc : List Bool) (dev : IliumDev) (buf : Nat → Nat) (count : Int),
          0 ≤ count → 0 ≤ dev.size → dev.size ≤ dev.capacity →
          0 ≤ (ilium_write alloc dev dev.size buf count false).retval) := by
  refine ⟨fun dev offp count h => ?_, fun alloc dev offp buf count h => ?_,
    fun alloc dev buf count hc h0 h1 => ?_⟩
  · have hge : offp ≥ dev.size := h
    simp [ilium_read, hge]
  · have hgt : offp > dev.size := h
    simp [ilium_write, hgt]
  · rw [ilium_write_retval_of_le alloc dev dev.size buf count le_rfl]
    rcases growLoop_count_cases dev.size count alloc dev with hcase | hcase
    · omega
    · have hmono := growLoop_capacity_mono dev.size count alloc dev (by omega)
      omega

/-- Witness for the amended claim C3 at concrete inputs on the fresh
device: a read at offset 0 of the empty store fails with `-EFAULT`, a
write at offset 1 > size fails with `-EFAULT`, and a write at
offset == size == 0 returns a nonnegative count. -/
theorem bounds_checks_witness :
    (ilium_read iliumInit 0 5 false).retval = -EFAULT ∧
      ilium_write [] iliumInit 1 buf1 5 false = ⟨iliumInit, 1, -EFAULT⟩ ∧
      0 ≤ (ilium_write [] iliumInit iliumInit.size buf1 5 false).retval :=
  ⟨bounds_checks.1 iliumInit 0 5 (by decide),
   bounds_checks.2.1 [] iliumInit 1 buf1 5 (by decide),
   bounds_checks.2.2 [] iliumInit buf1 5 (by decide) (by decide) (by decide)⟩

/-!
Claim C4.
-/

/-- Claim C4: when the growth loop of a bounds-respecting write hits an
allocation failure before reaching the requested end, the effective write
length is reduced to `capacity - offset` (for the capacity left by the
partial growth), exactly the bytes of that window are copied from the user
buffer into storage at `offset`, the reduced count is accounted into
`size`, and the reduced count is what the call returns. -/
theorem write_truncates_on_alloc_failure (alloc : List Bool)
    (dev : IliumDev) (offp : Int) (buf : Nat → Nat) (count : Int)
    (hoff : offp ≤ dev.size)
    (hfail : (growLoop offp count alloc dev).failed = true) :
    (ilium_write alloc dev offp buf count false).retval =
        (ilium_write alloc dev offp buf count false).dev.capacity - offp ∧
      (∀ i : Int, offp ≤ i →
        i < offp + (ilium_write alloc dev offp buf count false).retval →
        (ilium_write alloc dev offp buf count false).dev.data i =
          buf (i - offp).toNat) ∧
      (ilium_write alloc dev offp buf count false).dev.size =
        dev.size + (ilium_write alloc dev offp buf count false).retval := by
  have hr := ilium_write_retval_of_le alloc dev offp buf count hoff
  refine ⟨?_, ?_, ?_⟩
  · rw [hr, ilium_write_capacity_of_le alloc dev offp buf count hoff]
    exact growLoop_count_of_failed offp count alloc dev hfail
  · intro i h1 h2
    rw [hr] at h2
    rw [ilium_write_data_of_le alloc dev offp buf count hoff]
    simp only [h1, h2, and_self, if_true]
  · rw [hr]
    exact ilium_write_size_of_le alloc dev offp buf count hoff

/-- Witness for claim C4: writing 200000 bytes at offset 0 into the fresh
device with every allocation failing truncates the write to the
131072-byte capacity and returns that count. -/
theorem write_truncates_on_alloc_failure_witness :
    (ilium_write [] iliumInit 0 buf1 200000 false).retval =
        (ilium_write [] iliumInit 0 buf1 200000 false).dev.capacity - 0 ∧
      (ilium_write [] iliumInit 0 buf1 200000 false).retval = 131072 :=
  ⟨(write_truncates_on_alloc_failure [] iliumInit 0 buf1 200000 (by decide)
      (by decide)).1, by decide⟩

/-!
Claim C5.
-/

/-- Claim C5 (counterexample): the post-write capacity is not in general
the smallest power-of-two multiple of the 131072-byte growth unit that is
`≥` the final write end.  In the reachable state `c5pre` the capacity has
already grown to 262144; a fully successful one-byte write at offset 0
(final end 1, no allocation attempted) leaves the capacity at 262144 even
though the smaller multiple `growthUnit * 2^0 = 131072` already exceeds
the write end. -/
theorem capacity_not_smallest_for_small_write :
    (growLoop 0 1 [] c5pre.dev).failed = false ∧
      (0 : Int) ≤ c5pre.dev.size ∧
      (ilium_write [] c5pre.dev 0 buf0 1 false).retval = 1 ∧
      0 + 1 ≤ growthUnit * 2 ^ 0 ∧
      growthUnit * 2 ^ 0 <
        (ilium_write [] c5pre.dev 0 buf0 1 false).dev.capacity := by decide

/-- Claim C5 (amended): for every write whose bounds check passes and whose
growth loop never hits an allocation failure, the post-state capacity is a
power-of-two multiple of the growth unit, it is `≥` the final write end
`offset + count` AND `≥` the pre-state capacity, and it is the smallest
power-of-two multiple of the growth unit with both properties (the original
claim omitted the pre-state capacity bound: capacity never shrinks back). -/
theorem capacity_smallest_sufficient_doubling (alloc : List Bool)
    (dev : IliumDev) (offp : Int) (buf : Nat → Nat) (count : Int) (j : Nat)
    (hcap : dev.capacity = growthUnit * 2 ^ j)
    (hoff : offp ≤ dev.size)
    (hfail : (growLoop offp count alloc dev).failed = false) :
    (∃ m : Nat, (ilium_write alloc dev offp buf count false).dev.capacity =
        growthUnit * 2 ^ m) ∧
      offp + count ≤
        (ilium_write alloc dev offp buf count false).dev.capacity ∧
      dev.capacity ≤
        (ilium_write alloc dev offp buf count false).dev.capacity ∧
      ∀ k : Nat, offp + count ≤ growthUnit * 2 ^ k →
        dev.capacity ≤ growthUnit * 2 ^ k →
        (ilium_write alloc dev offp buf count false).dev.capacity ≤
          growthUnit * 2 ^ k := by
  have hunit : (0 : Int) < growthUnit := by norm_num [growthUnit, PAGE_SIZE]
  have hcapnn : (0 : Int) ≤ dev.capacity := by
    rw [hcap]; positivity
  rw [ilium_write_capacity_of_le alloc dev offp buf count hoff]
  obtain ⟨hend, hmin⟩ := growLoop_success offp count alloc dev hfail
  refine ⟨?_, hend, growLoop_capacity_mono offp count alloc dev hcapnn, ?_⟩
  · obtain ⟨t, ht⟩ := growLoop_capacity_pow offp count alloc dev
    exact ⟨j + t, by rw [ht, hcap, pow_add, mul_assoc]⟩
  · intro k hk1 hk2
    rcases hmin with hsame | ⟨c, hc1, hc2, s, hc3⟩
    · rw [hsame]; exact hk2
    · have hcval : c = growthUnit * 2 ^ (j + s) := by
        rw [hc3, hcap, pow_add, mul_assoc]
      have hlt : growthUnit * 2 ^ (j + s) < growthUnit * 2 ^ k := by
        rw [← hcval]; omega
      have hexp : j + s < k :=
        (pow_lt_pow_iff_right₀ (by norm_num : (1 : Int) < 2)).mp
          ((mul_lt_mul_left hunit).mp hlt)
      have hpow : (2 : Int) ^ (j + s + 1) ≤ 2 ^ k :=
        pow_le_pow_right₀ (by norm_num) (by omega)
      have : growthUnit * 2 ^ (j + s + 1) ≤ growthUnit * 2 ^ k :=
        mul_le_mul_of_nonneg_left hpow (by omega)
      rw [hc1, hcval]
      calc 2 * (growthUnit * 2 ^ (j + s)) = growthUnit * 2 ^ (j + s + 1) := by
            ring
        _ ≤ growthUnit * 2 ^ k := this

/-- Witness for the amended claim C5, reproducing the specification's
example: writing 200000 bytes at offset 0 into the fresh 131072-byte store
with one successful allocation doubles the capacity exactly once, to
262144, with `size = 200000`. -/
theorem capacity_smallest_sufficient_doubling_witness :
    (ilium_write [true] iliumInit 0 buf1 200000 false).dev.capacity =
        262144 ∧
      (ilium_write [true] iliumInit 0 buf1 200000 false).dev.size =
        200000 ∧
      0 + 200000 ≤
        (ilium_write [true] iliumInit 0 buf1 200000 false).dev.capacity :=
  ⟨by decide, by decide,
   (capacity_smallest_sufficient_doubling [true] iliumInit 0 buf1 200000 0
      (by decide) (by decide) (by decide)).2.1⟩

/-!
Claim C6.
-/

/-- Claim C6: read-after-write round trip.  Whenever a write of `count ≥ 0`
bytes from the user buffer at some offset returns the full `count` (no
truncation), an immediate read of `count` bytes from the same offset
returns exactly the bytes of that buffer. -/
theorem read_after_write (alloc : List Bool) (dev : IliumDev) (offp : Int)
    (buf : Nat → Nat) (count : Int)
    (hcount : 0 ≤ count)
    (hret : (ilium_write alloc dev offp buf count false).retval = count) :
    (ilium_read (ilium_write alloc dev offp buf count false).dev offp count
        false).bytes = (List.range count.toNat).map buf := by
  by_cases ho : offp > dev.size
  · simp [ilium_write, ho, EFAULT] at hret
    omega
  · have hle : offp ≤ dev.size := by omega
    have hgc : (growLoop offp count alloc dev).count = count := by
      rw [← ilium_write_retval_of_le alloc dev offp buf count hle]
      exact hret
    have hsize := ilium_write_size_of_le alloc dev offp buf count hle
    rw [hgc] at hsize
    have hdata := ilium_write_data_of_le alloc dev offp buf count hle
    rw [hgc] at hdata
    by_cases hz : offp ≥ dev.size + count
    · have hc0 : count = 0 := by omega
      subst hc0
      have hge : offp ≥ (ilium_write alloc dev offp buf 0 false).dev.size := by
        omega
      simp [ilium_read, hge]
    · rw [ilium_read_bytes_of_lt _ offp count (by omega) (by omega), hdata]
      refine List.map_congr_left fun i hi => ?_
      have hilt : i < count.toNat := List.mem_range.mp hi
      have hic : (i : Int) < count := by omega
      have hcond : offp ≤ offp + (i : Int) ∧ offp + (i : Int) < offp + count := by
        constructor <;> omega
      simp only [hcond, and_self, if_true]
      congr 1
      omega

/-- Witness for claim C6: write bytes `1, 2, 3` at offset 0 of the fresh
device and read them straight back. -/
theorem read_after_write_witness :
    (ilium_read (ilium_write [] iliumInit 0 buf1 3 false).dev 0 3
        false).bytes = (List.range (3 : Int).toNat).map buf1 :=
  read_after_write [] iliumInit 0 buf1 3 (by decide) (by decide)

/-!
Claim C7.
-/

/-- Claim C7: seek semantics.  For `whence` in `{SEEK_SET, SEEK_CUR,
SEEK_END}` with target positions `off`, `cursor + off` and
`size - 1 + off` respectively, the seek succeeds exactly when the target
is strictly below `size`, setting the cursor to the target and returning
it; otherwise it fails with `-EFAULT` and the cursor is unchanged. -/
theorem llseek_semantics (dev : IliumDev) (f_pos off whence : Int)
    (hw : whence = SEEK_SET ∨ whence = SEEK_CUR ∨ whence = SEEK_END) :
    (seekTarget dev f_pos off whence < dev.size →
        ilium_llseek dev f_pos off whence false =
          ⟨seekTarget dev f_pos off whence,
           seekTarget dev f_pos off whence⟩) ∧
      (dev.size ≤ seekTarget dev f_pos off whence →
        ilium_llseek dev f_pos off whence false = ⟨f_pos, -EFAULT⟩) := by
  rcases hw with h | h | h <;> subst h <;> constructor
  · intro ht
    simp [seekTarget, SEEK_SET, SEEK_CUR, SEEK_END] at ht
    simp [ilium_llseek, seekTarget, SEEK_SET, SEEK_CUR, SEEK_END,
      not_le.mpr ht]
  · intro ht
    simp [seekTarget, SEEK_SET, SEEK_CUR, SEEK_END] at ht
    simp [ilium_llseek, SEEK_SET, SEEK_CUR, SEEK_END, ht]
  · intro ht
    simp [seekTarget, SEEK_SET, SEEK_CUR, SEEK_END] at ht
    simp [ilium_llseek, seekTarget, SEEK_SET, SEEK_CUR, SEEK_END,
      not_le.mpr ht]
  · intro ht
    simp [seekTarget, SEEK_SET, SEEK_CUR, SEEK_END] at ht
    simp [ilium_llseek, SEEK_SET, SEEK_CUR, SEEK_END, ht]
  · intro ht
    simp [seekTarget, SEEK_SET, SEEK_CUR, SEEK_END] at ht
    simp [ilium_llseek, seekTarget, SEEK_SET, SEEK_CUR, SEEK_END,
      not_le.mpr ht]
  · intro ht
    simp [seekTarget, SEEK_SET, SEEK_CUR, SEEK_END] at ht
    simp [ilium_llseek, SEEK_SET, SEEK_CUR, SEEK_END, ht]

/-- Witness for claim C7 on a five-byte store: `SEEK_SET` to position 2
succeeds and returns 2; `SEEK_SET` to position 7 fails with `-EFAULT` and
leaves the cursor at 0. -/
theorem llseek_semantics_witness :
    ilium_llseek dev5 0 2 SEEK_SET false =
        ⟨seekTarget dev5 0 2 SEEK_SET, seekTarget dev5 0 2 SEEK_SET⟩ ∧
      ilium_llseek dev5 0 7 SEEK_SET false = ⟨0, -EFAULT⟩ :=
  ⟨(llseek_semantics dev5 0 2 SEEK_SET (Or.inl rfl)).1 (by decide),
   (llseek_semantics dev5 0 7 SEEK_SET (Or.inl rfl)).2 (by decide)⟩

/-!
Claim C8.
-/

/-- Claim C8 (counterexample): an interrupted Seek does not return the
Interrupted error.  `ilium_llseek` initialises its return value to
`-EFAULT` and returns that, not `-ERESTARTSYS`, when the semaphore wait is
interrupted. -/
theorem llseek_interrupted_returns_efault :
    ilium_llseek iliumInit 0 0 SEEK_SET true = ⟨0, -EFAULT⟩ ∧
      (ilium_llseek iliumInit 0 0 SEEK_SET true).retval ≠
        -ERESTARTSYS := by decide

/-- Claim C8 (amended): an operation whose lock wait is interrupted aborts
before any state change — the device (`size`, `capacity`, storage) and the
handle's cursor are returned unchanged, and no bytes are transferred.
Write and Read then return the Interrupted error `-ERESTARTSYS`, but Seek
returns `-EFAULT`, the same value as its out-of-range failure. -/
theorem interrupted_ops_leave_state_unchanged :
    (∀ (alloc : List Bool) (dev : IliumDev) (offp : Int) (buf : Nat → Nat)
        (count : Int),
        ilium_write alloc dev offp buf count true =
          ⟨dev, offp, -ERESTARTSYS⟩) ∧
      (∀ (dev : IliumDev) (offp count : Int),
        ilium_read dev offp count true = ⟨[], offp, -ERESTARTSYS⟩) ∧
      (∀ (dev : IliumDev) (f_pos off whence : Int),
        ilium_llseek dev f_pos off whence true = ⟨f_pos, -EFAULT⟩) := by
  refine ⟨fun alloc dev offp buf count => ?_, fun dev offp count => ?_,
    fun dev f_pos off whence => ?_⟩ <;>
    simp [ilium_write, ilium_read, ilium_llseek]

/-!
Claim C9.
-/

/-- Claim C9: every write that returns a nonnegative count advances the
handle's cursor by exactly that count: the post-cursor is
`offset + bytesWritten`. -/
theorem write_advances_cursor (alloc : List Bool) (dev : IliumDev)
    (offp : Int) (buf : Nat → Nat) (count : Int) (intr : Bool)
    (h : 0 ≤ (ilium_write alloc dev offp buf count intr).retval) :
    (ilium_write alloc dev offp buf count intr).offp =
      offp + (ilium_write alloc dev offp buf count intr).retval := by
  by_cases hi : intr = true
  · simp [ilium_write, hi, ERESTARTSYS] at h
  · have hb : intr = false := by
      cases intr
      · rfl
      · simp at hi
    subst hb
    by_cases ho : offp > dev.size
    · simp [ilium_write, ho, EFAULT] at h
    · rw [ilium_write_offp_of_le alloc dev offp buf count (by omega),
        ilium_write_retval_of_le alloc dev offp buf count (by omega)]

/-- Witness for claim C9: writing five bytes at offset 0 of the fresh
device moves the cursor to `0 + 5`. -/
theorem write_advances_cursor_witness :
    (ilium_write [] iliumInit 0 buf1 5 false).offp =
      0 + (ilium_write [] iliumInit 0 buf1 5 false).retval :=
  write_advances_cursor [] iliumInit 0 buf1 5 false (by decide)

/-!
Claim C10.
-/

/-- Claim C10: a Seek with a `whence` outside `{SEEK_SET, SEEK_CUR,
SEEK_END}` falls through the `switch` without any bounds check: the cursor
is unchanged and the current cursor value is returned as a successful
result. -/
theorem llseek_unknown_whence (dev : IliumDev) (f_pos off whence : Int)
    (h0 : whence ≠ SEEK_SET) (h1 : whence ≠ SEEK_CUR)
    (h2 : whence ≠ SEEK_END) :
    ilium_llseek dev f_pos off whence false = ⟨f_pos, f_pos⟩ := by
  simp [ilium_llseek, h0, h1, h2]

/-- Witness for claim C10: `whence = 3` on the fresh device with the
cursor at 5 returns 5 and leaves the cursor at 5. -/
theorem llseek_unknown_whence_witness :
    ilium_llseek iliumInit 5 7 3 false = ⟨5, 5⟩ :=
  llseek_unknown_whence iliumInit 5 7 3 (by decide) (by decide) (by decide)

end Ilium
